import Mathlib

/-!
# Verification of the searchable multi-select user list (src/App.js)

Shallow embedding of the React component in `src/App.js`:

* a `UserRec` models one fetched user record (`id`, `username`, `email`);
  strings are modelled as `List Char`;
* `AppState` models the component's React state: `data` (the base list),
  `searchInput` (the displayed query), `searchedData` (the visible list),
  `showDelete` (the delete-affordance flag) and `selectedIds` (the
  selection set, a JS `Set` modelled as `Finset Nat`);
* each event handler of the component becomes a pure function on
  `AppState`; the `useEffect` that synchronises `showDelete` with
  `selectedIds` becomes a separate `Event.effectShowDelete` step, since
  React runs it only after the render that follows the state update;
* `debounceRun` models one closure produced by `debounce(func, delay)`:
  a pending timer `(fireTime, args)` that each call replaces
  (`clearTimeout` + `setTimeout`); `typingExec` models the program's
  wiring, in which every keystroke re-creates the closure (the component
  body re-runs `debounce(handleSearchChange, 300)` on each render), so
  each keystroke's call reaches a closure with no pending timer.

The active code never reads the `selected` field that `callAPI` adds to
the initial visible list (selection lives in `selectedIds`), so the state
machine uses the uniform `UserRec` type; the annotated copy made by
`callAPI` is modelled separately by `annotateSelected` / `callAPI`.
-/

/-- A fetched user record: `{ id, username, email }`. JS strings are
modelled as `List Char`. -/
structure UserRec where
  id : Nat
  username : List Char
  email : List Char
deriving DecidableEq, Repr

/-- The React state of `App`: `data` is the base list, `searchInput` the
displayed query, `searchedData` the visible list, `showDelete` the
delete-affordance flag, `selectedIds` the selection set. -/
structure AppState where
  data : List UserRec
  searchInput : List Char
  searchedData : List UserRec
  showDelete : Bool
  selectedIds : Finset Nat
deriving DecidableEq

/-- `String.prototype.toLowerCase`, restricted to the characters the data
model uses (ASCII), as a character-wise map. -/
def jsToLower (s : List Char) : List Char := s.map Char.toLower

/-- `b` starts the list `a`: the leading-segment test used by
`jsIncludes`. -/
def leadsList : List Char → List Char → Bool
  | [], _ => true
  | _ :: _, [] => false
  | x :: xs, y :: ys => x == y && leadsList xs ys

/-- `a.includes(b)` for JS strings: `b` occurs contiguously in `a`. -/
def jsIncludes : List Char → List Char → Bool
  | [], b => leadsList b []
  | a@(_ :: as), b => leadsList b a || jsIncludes as b

/-- The predicate of the filter inside `handleSearchChange`:
`item.username.toLowerCase().includes(value.toLowerCase()) ||
 item.email.toLowerCase().includes(value.toLowerCase())`. -/
def recMatches (value : List Char) (item : UserRec) : Bool :=
  jsIncludes (jsToLower item.username) (jsToLower value) ||
  jsIncludes (jsToLower item.email) (jsToLower value)

/-- `handleCheckBox(id)`: copy `selectedIds` and flip `id`'s membership
(`delete` when present, `add` when absent). The copy-then-mutate of the
source becomes a pure function returning the new set; the argument set is
a value and is untouched. -/
def handleCheckBox (selectedIds : Finset Nat) (id : Nat) : Finset Nat :=
  if id ∈ selectedIds then selectedIds.erase id else insert id selectedIds

/-- `handleDeleteClick()`: keep in `searchedData` the items whose id is
not in `selectedIds`, then clear `selectedIds`. The base list `data` is
not touched by the source handler. -/
def handleDeleteClick (s : AppState) : AppState :=
  { s with
    searchedData := s.searchedData.filter (fun item => !decide (item.id ∈ s.selectedIds)),
    selectedIds := ∅ }

/-- `handleSearchChange(value)`: on a falsy (empty) value, reset
`searchedData` to the base list `data`; otherwise filter the *current*
`searchedData` by the case-insensitive substring test. -/
def handleSearchChange (s : AppState) (value : List Char) : AppState :=
  if value = [] then { s with searchedData := s.data }
  else { s with searchedData := s.searchedData.filter (recMatches value) }

/-- `handleInputChange(e)`: store the raw value as the displayed query
and hand it to the (debounced) `handleSearchChange`. The debounced filter
execution is a separate `Event.searchChange` step. -/
def handleInputChange (s : AppState) (value : List Char) : AppState :=
  { s with searchInput := value }

/-- The `useEffect(() => setShowDelete(selectedIds.size > 0), [selectedIds])`
body, as its own step: React runs it after the render that follows a
`selectedIds` update. -/
def effectShowDelete (s : AppState) : AppState :=
  { s with showDelete := decide (0 < s.selectedIds.card) }

/-- The observable events of the List Controller after mount. Each event
yields an observable frame (a render); the `showDelete` effect is its own
event because it runs only after the frame that follows a `selectedIds`
change. -/
inductive Event where
  | checkBox (id : Nat)
  | deleteClick
  | inputChange (value : List Char)
  | searchChange (value : List Char)
  | effectShowDelete
deriving DecidableEq, Repr

/-- One state transition per event. -/
def step (s : AppState) : Event → AppState
  | .checkBox id => { s with selectedIds := handleCheckBox s.selectedIds id }
  | .deleteClick => handleDeleteClick s
  | .inputChange v => handleInputChange s v
  | .searchChange v => handleSearchChange s v
  | .effectShowDelete => effectShowDelete s

/-- The state after the mount-time fetch succeeds with `result`:
`data := result`, `searchedData := copy of result` (the `selected := false`
annotation of the copy is never read by the active code and is dropped
here; `callAPI` below models it), empty query, empty selection, hidden
delete control. -/
def mountState (result : List UserRec) : AppState :=
  { data := result
    searchInput := []
    searchedData := result
    showDelete := false
    selectedIds := ∅ }

/-- Run a sequence of events from a state. -/
def run (s : AppState) (es : List Event) : AppState := es.foldl step s

/-- The record type of the initial visible list: the deep copy made by
`callAPI` gives every record a fourth field `selected`. -/
structure SelUserRec where
  id : Nat
  username : List Char
  email : List Char
  selected : Bool
deriving DecidableEq, Repr

/-- `resultCopy.forEach(item => { item.selected = false })` applied to a
deep copy of one record. -/
def annotateSelected (r : UserRec) : SelUserRec :=
  { id := r.id, username := r.username, email := r.email, selected := false }

/-- `callAPI` after a successful fetch of `result`: `setData(result)`
stores the raw result, `setSearchedData(resultCopy)` stores the deep copy
with `selected := false` on every record. Returns (base list, initial
visible list). -/
def callAPI (result : List UserRec) : List UserRec × List SelUserRec :=
  (result, result.map annotateSelected)

/-- The trailing-edge debounce closure made by `debounce(func, delay)`:
`calls` is the time-ordered list of `(callTime, args)` invocations of the
wrapped callable, `pend` the pending `(fireTime, args)` timer. A call
before the pending fire time cancels it (`clearTimeout`) and schedules
`(callTime + delay, args)`; a timer whose fire time has passed has fired,
producing an execution of the underlying function. Returns the list of
`(fireTime, args)` executions. -/
def debounceRun (delay : Nat) : List (Nat × List Char) → Option (Nat × List Char) → List (Nat × List Char)
  | [], none => []
  | [], some pend => [pend]
  | (t, a) :: rest, none => debounceRun delay rest (some (t + delay, a))
  | (t, a) :: rest, some pend =>
    if t < pend.1 then debounceRun delay rest (some (t + delay, a))
    else pend :: debounceRun delay rest (some (t + delay, a))

/-- The executions produced by a fresh debounced callable (no pending
timer) on a time-ordered list of calls. -/
def debounceExec (delay : Nat) (calls : List (Nat × List Char)) : List (Nat × List Char) :=
  debounceRun delay calls none

/-- The executions the *program* produces for a typing session:
`debouncedHandleSearchChange = debounce(handleSearchChange, 300)` runs
in the component body, so it is re-created on every render, and
`setSearchInput` inside `handleInputChange` forces a render between
keystrokes of the controlled input (`value={searchInput}`). Each
keystroke therefore calls a fresh closure whose `debounceTimer` is
undefined: `clearTimeout(undefined)` cancels nothing, earlier timers
keep running, and every keystroke's timer fires. -/
def typingExec (delay : Nat) : List (Nat × List Char) → List (Nat × List Char)
  | [] => []
  | k :: ks => debounceExec delay [k] ++ typingExec delay ks

/-- Sample records used by concrete witnesses and counterexamples. -/
def u1 : UserRec := { id := 1, username := ['a'], email := ['a', '@', 'x'] }

def u2 : UserRec := { id := 2, username := ['b'], email := ['b', '@', 'x'] }

/-! ## Helper lemmas -/

/-- Membership after one toggle is the exclusive-or of membership before
with being the toggled id. -/
theorem mem_handleCheckBox (s : Finset Nat) (id x : Nat) :
    x ∈ handleCheckBox s id ↔ Xor' (x ∈ s) (x = id) := by
  unfold handleCheckBox
  by_cases hid : id ∈ s <;> by_cases hx : x = id <;>
    simp [hid, hx, Finset.mem_erase, Finset.mem_insert, Xor']

/-- `leadsList b a` decides whether `b` is a leading segment of `a`. -/
theorem leadsList_iff (b a : List Char) :
    leadsList b a = true ↔ ∃ t, b ++ t = a := by
  induction b generalizing a with
  | nil => simp [leadsList]
  | cons x xs ih =>
    cases a with
    | nil => simp [leadsList]
    | cons y ys =>
      simp only [leadsList, Bool.and_eq_true, beq_iff_eq, ih]
      constructor
      · rintro ⟨rfl, t, rfl⟩
        exact ⟨t, rfl⟩
      · rintro ⟨t, ht⟩
        injection ht with h1 h2
        exact ⟨h1, t, h2⟩

/-- `jsIncludes a b` decides whether `b` occurs contiguously inside `a`. -/
theorem jsIncludes_iff (a b : List Char) :
    jsIncludes a b = true ↔ ∃ l r, l ++ b ++ r = a := by
  induction a with
  | nil =>
    cases b with
    | nil => simp [jsIncludes, leadsList]
    | cons x xs => simp [jsIncludes, leadsList]
  | cons c cs ih =>
    simp only [jsIncludes, Bool.or_eq_true, leadsList_iff, ih]
    constructor
    · rintro (⟨t, ht⟩ | ⟨l, r, rfl⟩)
      · exact ⟨[], t, by simpa using ht⟩
      · exact ⟨c :: l, r, rfl⟩
    · rintro ⟨l, r, hl⟩
      cases l with
      | nil => exact Or.inl ⟨r, by simpa using hl⟩
      | cons c' l' =>
        injection hl with h1 h2
        exact Or.inr ⟨l', r, h2⟩

/-- While every next call arrives before the pending timer fires, each
call cancels the timer and reschedules with its own arguments, so the run
produces exactly the one trailing execution of the last call. -/
theorem debounceRun_all_cancel (delay : Nat) :
    ∀ (calls : List (Nat × List Char)) (t : Nat) (a : List Char),
      List.Chain' (fun p q => q.1 < p.1 + delay) ((t, a) :: calls) →
      debounceRun delay calls (some (t + delay, a)) =
        [((((t, a) :: calls).getLast (by simp)).1 + delay,
          (((t, a) :: calls).getLast (by simp)).2)] := by
  intro calls
  induction calls with
  | nil => intro t a _; simp [debounceRun]
  | cons hd rest ih =>
    intro t a h
    obtain ⟨t', a'⟩ := hd
    have hlt : t' < t + delay := (List.chain'_cons.mp h).1
    have htail : List.Chain' (fun p q => q.1 < p.1 + delay) ((t', a') :: rest) :=
      (List.chain'_cons.mp h).2
    rw [debounceRun, if_pos hlt, ih t' a' htail]
    simp [List.getLast]

/-- The visible list is always a subsequence of the base list: every
event of the List Controller preserves it. -/
theorem step_sublist (s : AppState) (e : Event)
    (h : s.searchedData.Sublist s.data) :
    (step s e).searchedData.Sublist (step s e).data := by
  cases e with
  | checkBox id => exact h
  | deleteClick => exact (List.filter_sublist _).trans h
  | inputChange v => exact h
  | searchChange v =>
    by_cases hv : v = [] <;>
      simp [step, handleSearchChange, hv]
    exact (List.filter_sublist _).trans h
  | effectShowDelete => exact h

/-- The subsequence invariant extends to every run of events. -/
theorem run_sublist (es : List Event) :
    ∀ s : AppState, s.searchedData.Sublist s.data →
      (run s es).searchedData.Sublist (run s es).data := by
  induction es with
  | nil => intro s h; exact h
  | cons e rest ih =>
    intro s h
    exact ih (step s e) (step_sublist s e h)

/-! ## Claims -/

/-- C4: for every starting selection set and every finite sequence of
`handleCheckBox` toggles, the final membership of any id is the
exclusive-or of its initial membership with the parity of the number of
occurrences of that id in the sequence (so from the empty set, an even
count leaves it absent and an odd count leaves it present). -/
theorem C4_toggle_parity (init : Finset Nat) (ids : List Nat) (x : Nat) :
    x ∈ ids.foldl handleCheckBox init ↔
      Xor' (x ∈ init) (ids.count x % 2 = 1) := by
  induction ids generalizing init with
  | nil => simp [Xor']
  | cons hd tl ih =>
    rw [List.foldl_cons, ih, mem_handleCheckBox]
    by_cases hx : x = hd
    · subst hx
      have hpar : (tl.count x + 1) % 2 = 1 ↔ ¬ tl.count x % 2 = 1 := by
        omega
      simp only [List.count_cons_self, hpar, Xor']
      tauto
    · have hcount : (hd :: tl).count x = tl.count x := by
        simp [List.count_cons, hx, Ne.symm hx]
      simp only [hcount, Xor', hx]
      tauto

/-- C7: invoking `handleSearchChange` with the empty (falsy) query resets
the visible list to the full base list, whatever the previous visible
list was; no other state field changes. -/
theorem C7_empty_query_reset (s : AppState) :
    handleSearchChange s [] = { s with searchedData := s.data } := by
  simp [handleSearchChange]

/-- C9: `handleDeleteClick` with an empty selection set is a no-op: the
state (in particular the visible list, record for record and in order,
and the still-empty selection set) is unchanged, so the operation is
idempotent there. -/
theorem C9_delete_empty_noop (s : AppState) (h : s.selectedIds = ∅) :
    handleDeleteClick s = s := by
  obtain ⟨d, si, sd, sh, sel⟩ := s
  have h' : sel = ∅ := h
  subst h'
  simp [handleDeleteClick, List.filter_eq_self]

/-- C9 witness: the theorem applied at a concrete mounted state. -/
theorem C9_delete_empty_noop_witness :
    (mountState [u1]).selectedIds = ∅ ∧
      handleDeleteClick (mountState [u1]) = mountState [u1] :=
  ⟨rfl, C9_delete_empty_noop (mountState [u1]) rfl⟩

/-- C8: `handleCheckBox` returns a new set in which exactly the toggled
id's membership is flipped: the toggled id is in the new set iff it was
not in the old one, and every other id's membership is identical in the
old and new sets (the argument set is a pure value and is untouched). -/
theorem C8_toggle_frame (s : Finset Nat) (id : Nat) :
    (id ∈ handleCheckBox s id ↔ id ∉ s) ∧
      ∀ j, j ≠ id → (j ∈ handleCheckBox s id ↔ j ∈ s) := by
  constructor
  · simp [mem_handleCheckBox, Xor']
  · intro j hj
    simp [mem_handleCheckBox, Xor', hj]

/-- C8 witness: toggling 1 into the set `{2}` adds 1 and leaves 2's
membership unchanged. -/
theorem C8_toggle_frame_witness :
    (1 ∈ handleCheckBox {2} 1 ↔ (1 : Nat) ∉ ({2} : Finset Nat)) ∧
      (2 ∈ handleCheckBox {2} 1 ↔ (2 : Nat) ∈ ({2} : Finset Nat)) :=
  ⟨(C8_toggle_frame {2} 1).1, (C8_toggle_frame {2} 1).2 2 (by decide)⟩

/-- C10: after a successful fetch of `result`, the base list stores the
raw result while the initial visible list is the element-wise deep copy
that carries the additional field `selected := false`; the two lists
agree on `id`, `username` and `email` in the same order. -/
theorem C10_mount_selected_copy (result : List UserRec) :
    (callAPI result).1 = result ∧
      (∀ v ∈ (callAPI result).2, v.selected = false) ∧
      (callAPI result).2.map (fun v => (v.id, v.username, v.email)) =
        result.map (fun r => (r.id, r.username, r.email)) := by
  refine ⟨rfl, ?_, ?_⟩
  · intro v hv
    simp only [callAPI, List.mem_map] at hv
    obtain ⟨r, -, rfl⟩ := hv
    rfl
  · simp [callAPI, List.map_map, Function.comp, annotateSelected]

/-- C10 witness: the theorem applied at the concrete fetch result
`[u1, u2]`, with the membership hypothesis discharged at the head
annotated record. -/
theorem C10_mount_selected_copy_witness :
    (callAPI [u1, u2]).1 = [u1, u2] ∧
      (annotateSelected u1).selected = false ∧
      (callAPI [u1, u2]).2.map (fun v => (v.id, v.username, v.email)) =
        [u1, u2].map (fun r => (r.id, r.username, r.email)) :=
  ⟨(C10_mount_selected_copy [u1, u2]).1,
    (C10_mount_selected_copy [u1, u2]).2.1 (annotateSelected u1) (by simp [callAPI]),
    (C10_mount_selected_copy [u1, u2]).2.2⟩

/-- C6: for a non-empty query, `handleSearchChange` keeps exactly those
records of the *current visible list* whose lowercased username or email
contains the lowercased query as a contiguous substring, preserving their
relative order (the result is a sublist of the visible list); matching is
plain substring occurrence. -/
theorem C6_filter_semantics (s : AppState) (v : List Char) (hv : v ≠ []) :
    (handleSearchChange s v).searchedData =
        s.searchedData.filter (recMatches v) ∧
      (∀ r, r ∈ (handleSearchChange s v).searchedData ↔
        r ∈ s.searchedData ∧ recMatches v r = true) ∧
      List.Sublist (handleSearchChange s v).searchedData s.searchedData ∧
      ∀ item : UserRec, recMatches v item = true ↔
        ((∃ l r, l ++ jsToLower v ++ r = jsToLower item.username) ∨
          (∃ l r, l ++ jsToLower v ++ r = jsToLower item.email)) := by
  have hsd : (handleSearchChange s v).searchedData =
      s.searchedData.filter (recMatches v) := by
    simp [handleSearchChange, hv]
  refine ⟨hsd, ?_, ?_, ?_⟩
  · intro r
    rw [hsd]
    simp [List.mem_filter]
  · rw [hsd]
    exact List.filter_sublist _
  · intro item
    simp [recMatches, jsIncludes_iff]

/-- C6 witness: the theorem applied at the mounted state `[u1, u2]` with
the concrete query `"a"`, whose filter keeps exactly `u1`. -/
theorem C6_filter_semantics_witness :
    (handleSearchChange (mountState [u1, u2]) ['a']).searchedData =
        (mountState [u1, u2]).searchedData.filter (recMatches ['a']) ∧
      (u1 ∈ (handleSearchChange (mountState [u1, u2]) ['a']).searchedData ↔
        u1 ∈ (mountState [u1, u2]).searchedData ∧
          recMatches ['a'] u1 = true) ∧
      List.Sublist
        (handleSearchChange (mountState [u1, u2]) ['a']).searchedData
        (mountState [u1, u2]).searchedData ∧
      (recMatches ['a'] u1 = true ↔
        ((∃ l r, l ++ jsToLower ['a'] ++ r = jsToLower u1.username) ∨
          (∃ l r, l ++ jsToLower ['a'] ++ r = jsToLower u1.email))) :=
  ⟨(C6_filter_semantics (mountState [u1, u2]) ['a'] (by decide)).1,
    (C6_filter_semantics (mountState [u1, u2]) ['a'] (by decide)).2.1 u1,
    (C6_filter_semantics (mountState [u1, u2]) ['a'] (by decide)).2.2.1,
    (C6_filter_semantics (mountState [u1, u2]) ['a'] (by decide)).2.2.2 u1⟩

/-- A single persistent debounce closure is a correct trailing-edge
debouncer: for every non-empty time-ordered sequence of calls in which
each call arrives strictly less than `delay` after the previous one,
exactly one execution of the underlying function occurs, with the
arguments of the last call; and two calls separated by strictly more
than the delay produce two executions. This is what the claim asserts —
but the program never feeds successive keystrokes to one persistent
closure (see `typingExec`). -/
theorem debounce_single_closure_trailing (delay : Nat) (calls : List (Nat × List Char))
    (hne : calls ≠ [])
    (h : List.Chain' (fun p q => q.1 < p.1 + delay) calls) :
    debounceExec delay calls =
        [((calls.getLast hne).1 + delay, (calls.getLast hne).2)] ∧
      ∀ t1 a1 t2 a2 : _, t1 + delay < t2 →
        debounceExec delay [(t1, a1), (t2, a2)] =
          [(t1 + delay, a1), (t2 + delay, a2)] := by
  constructor
  · match calls, hne with
    | (t, a) :: rest, _ =>
      show debounceRun delay rest (some (t + delay, a)) = _
      exact debounceRun_all_cancel delay rest t a h
  · intro t1 a1 t2 a2 hgap
    have hnotlt : ¬ t2 < t1 + delay := by omega
    simp [debounceExec, debounceRun, hnotlt]

/-- C3: the program does not deliver the claimed collapse at the failing
input. `debouncedHandleSearchChange` is re-created on every render and
`setSearchInput` forces a render between keystrokes of the controlled
input, so typing "a" at 0 ms and "ab" at 100 ms — within the 300 ms
delay — executes `handleSearchChange` twice (with "a" at 300 ms, then
"ab" at 400 ms), while one persistent debounce closure, as the claim and
the code's own comment intend, would execute it exactly once, with
"ab". -/
theorem C3_per_render_two_executions :
    typingExec 300 [(0, ['a']), (100, ['a', 'b'])] =
        [(300, ['a']), (400, ['a', 'b'])] ∧
      debounceExec 300 [(0, ['a']), (100, ['a', 'b'])] =
        [(400, ['a', 'b'])] := by
  decide

/-- C1 counterexample: mount with `[u1, u2]`, select id 1, delete. The
deleted record `u1` is still in the base list, and resetting the query to
empty puts it back into the visible list — the removal is not permanent
and not from the base list. -/
theorem C1_counterexample_delete_not_permanent :
    ((run (mountState [u1, u2]) [Event.checkBox 1, Event.deleteClick]).searchedData
        = [u2]) ∧
      ((run (mountState [u1, u2]) [Event.checkBox 1, Event.deleteClick]).data
        = [u1, u2]) ∧
      ((run (mountState [u1, u2])
          [Event.checkBox 1, Event.deleteClick, Event.searchChange []]).searchedData
        = [u1, u2]) := by
  decide

/-- C1 amended: `handleDeleteClick` removes every selected record from
the visible list only and clears the selection set; the base list is
untouched, so a subsequent empty-query reset restores the full base list,
deleted records included. -/
theorem C1_amended_delete_visible_only (s : AppState) :
    (∀ r, r ∈ (handleDeleteClick s).searchedData ↔
        r ∈ s.searchedData ∧ r.id ∉ s.selectedIds) ∧
      (handleDeleteClick s).selectedIds = ∅ ∧
      (handleDeleteClick s).data = s.data ∧
      (handleSearchChange (handleDeleteClick s) []).searchedData = s.data := by
  refine ⟨?_, rfl, rfl, ?_⟩
  · intro r
    simp [handleDeleteClick, List.mem_filter]
  · simp [handleSearchChange, handleDeleteClick]

/-- C2 counterexample: mount with `[u1, u2]`, type and filter by "a",
then type and filter by "b". The visible list is empty although the base
list filtered by the current query "b" is `[u2]`: the filter ran against
the already-filtered result of the previous query. -/
theorem C2_counterexample_stale_filter :
    ((run (mountState [u1, u2])
        [Event.inputChange ['a'], Event.searchChange ['a'],
          Event.inputChange ['b'], Event.searchChange ['b']]).searchInput
      = ['b']) ∧
      ((run (mountState [u1, u2])
          [Event.inputChange ['a'], Event.searchChange ['a'],
            Event.inputChange ['b'], Event.searchChange ['b']]).searchedData
        = []) ∧
      ((run (mountState [u1, u2])
          [Event.inputChange ['a'], Event.searchChange ['a'],
            Event.inputChange ['b'], Event.searchChange ['b']]).data.filter
            (recMatches ['b'])
        = [u2]) := by
  decide

/-- C2 amended: at every reachable state the visible list is a
subsequence of the base list, but a non-empty query is filtered against
the current (already-filtered) visible list, not against the base list,
so the visible list need not equal the base list filtered by the current
query. -/
theorem C2_amended_narrowing (result : List UserRec) (es : List Event) :
    List.Sublist (run (mountState result) es).searchedData
        (run (mountState result) es).data ∧
      ∀ (s : AppState) (v : List Char), v ≠ [] →
        (handleSearchChange s v).searchedData =
          s.searchedData.filter (recMatches v) := by
  constructor
  · exact run_sublist es (mountState result) (List.Sublist.refl result)
  · intro s v hv
    simp [handleSearchChange, hv]

/-- C2 amended witness: the theorem applied at the concrete mount
`[u1, u2]` after filtering by "a", and the narrowing equation
instantiated at that state with the query "b". -/
theorem C2_amended_narrowing_witness :
    List.Sublist
        (run (mountState [u1, u2]) [Event.searchChange ['a']]).searchedData
        (run (mountState [u1, u2]) [Event.searchChange ['a']]).data ∧
      (handleSearchChange (mountState [u1, u2]) ['b']).searchedData =
        (mountState [u1, u2]).searchedData.filter (recMatches ['b']) :=
  ⟨(C2_amended_narrowing [u1, u2] [Event.searchChange ['a']]).1,
    (C2_amended_narrowing [u1, u2] [Event.searchChange ['a']]).2
      (mountState [u1, u2]) ['b'] (by decide)⟩

/-- C5 counterexample: after the first toggle the selection set is
non-empty but `showDelete` is still false in the frame rendered before
the `useEffect` runs — an observable frame in which the flag and the set
disagree. -/
theorem C5_counterexample_stale_frame :
    0 < (run (mountState [u1]) [Event.checkBox 1]).selectedIds.card ∧
      (run (mountState [u1]) [Event.checkBox 1]).showDelete = false := by
  decide

/-- C5 amended: once the `showDelete` effect has run after any state
transition, the flag equals (selection set non-empty); the agreement is
only guaranteed from the effect's frame onwards, not in the frame between
the transition and the effect. -/
theorem C5_amended_effect_sync (s : AppState) (e : Event) :
    (step (step s e) Event.effectShowDelete).showDelete = true ↔
      0 < (step (step s e) Event.effectShowDelete).selectedIds.card := by
  simp [step, effectShowDelete]
